import Mathlib

/-!
Shallow embedding of the ingestion, authentication and record-access code of
the `ethics-and-data-analysis` repository (`src/database.py`, `src/main.py`),
with theorems settling the specification's claims about it.
-/

namespace IGS

/-- Decidable equality for `Except`, used to evaluate the embedded operations
on concrete inputs. -/
instance {ε α : Type} [DecidableEq ε] [DecidableEq α] : DecidableEq (Except ε α) :=
  fun x y =>
  match x, y with
  | .ok a, .ok b =>
    if h : a = b then isTrue (congrArg Except.ok h)
    else isFalse (fun hq => h (Except.ok.inj hq))
  | .error a, .error b =>
    if h : a = b then isTrue (congrArg Except.error h)
    else isFalse (fun hq => h (Except.error.inj hq))
  | .ok _, .error _ => isFalse (fun hq => Except.noConfusion hq)
  | .error _, .ok _ => isFalse (fun hq => Except.noConfusion hq)

/-- A CSV cell holding a score, as seen by Python `float(...)`: either a value
that coerces to a number, or text on which `float` raises `ValueError`.
Scores are modelled as exact rationals; no claim involves rounding. -/
inductive ScoreVal where
  | num (q : ℚ)
  | malformed (s : String)
deriving DecidableEq

/-- Python `float(v)` as a fallible coercion. -/
def floatOf : ScoreVal → Option ℚ
  | .num q => some q
  | .malformed _ => none

/-- One row of the combined CSV working set of `init_db`; `census_tract` is
the raw cell already passed through `str(...)`. -/
structure Row where
  census_tract : String
  inclusion_score : ScoreVal
  growth_score : ScoreVal
  economy_score : ScoreVal
  community_score : ScoreVal
deriving DecidableEq

/-- A row of the `census_tracts` table (`class CensusTract` in `database.py`);
the surrogate integer `id` column plays no role in any claim and is omitted. -/
structure CensusTract where
  census_tract : String
  inclusion_score : ℚ
  growth_score : ℚ
  economy_score : ℚ
  community_score : ℚ
deriving DecidableEq

/-- Modelled from the spec: `nh3.clean` is the external `nh3` HTML sanitizer
(not code of this repository).  Section 4.1 specifies it as removing
markup/unsafe content, being idempotent, and leaving a string composed solely
of digits unchanged; it is modelled as removal of the markup-significant
characters. -/
def nh3Clean (s : String) : String :=
  ⟨s.data.filter (fun c => !(c = '<' || c = '>' || c = '&'))⟩

/-- Python `str.zfill`: left-pad with `'0'` to the requested width, keeping a
leading sign character in front of the padding; a string already at least that
wide is returned unchanged. -/
def zfill (s : String) (width : Nat) : String :=
  if width ≤ s.length then s
  else
    let pad := List.replicate (width - s.length) '0'
    match s.data with
    | [] => ⟨pad⟩
    | c :: rest =>
      if c = '+' ∨ c = '-' then ⟨c :: (pad ++ rest)⟩ else ⟨pad ++ c :: rest⟩

/-- Lines 72 to 74 of `database.py`: when the raw identifier contains a
decimal point, keep only the part before the first point
(`raw_id.split(".")[0]`). -/
def stripDecimals (raw : String) : String :=
  if '.' ∈ raw.data then ⟨raw.data.takeWhile (fun c => c != '.')⟩ else raw

/-- The identifier normalization performed on each row by `init_db`:
truncate at a decimal point, zero-pad to width 11, then sanitize. -/
def normalizeId (raw : String) : String :=
  nh3Clean (zfill (stripDecimals raw) 11)

/-- The four `float(row[...])` coercions used to build a `CensusTract`;
`none` when any of them raises `ValueError`. -/
def rowScores (r : Row) : Option (ℚ × ℚ × ℚ × ℚ) :=
  match floatOf r.inclusion_score, floatOf r.growth_score,
        floatOf r.economy_score, floatOf r.community_score with
  | some i, some g, some e, some c => some (i, g, e, c)
  | _, _, _, _ => none

/-- The Python error message raised by `float` on non-numeric text. -/
def floatErr : String := "could not convert string to float"

/-- The row loop of `init_db`: `seen` is the `seen_tracts` set, `pending` the
records added to the session so far, in order.  The duplicate check happens
before any score coercion; a fresh row with an uncoercible score raises, which
aborts the whole loop. -/
def ingestLoop (seen : List String) (pending : List CensusTract) :
    List Row → Except String (List CensusTract)
  | [] => .ok pending
  | r :: rs =>
    if normalizeId r.census_tract ∈ seen then ingestLoop seen pending rs
    else
      match rowScores r with
      | none => .error floatErr
      | some (i, g, e, c) =>
        ingestLoop (normalizeId r.census_tract :: seen)
          (pending ++ [⟨normalizeId r.census_tract, i, g, e, c⟩]) rs

/-- Outcome of a successful `init_db` run: the table contents after
`session.commit()`, and the Python return value of the function.  `init_db`
has no `return` statement, so its return value is `None`, modelled as
`retval = none`. -/
structure IngestResult where
  store : List CensusTract
  retval : Option Nat
deriving DecidableEq

/-- `init_db` of `database.py`, run over given table contents and the rows
loaded from the two CSV files (a missing or empty file contributes `[]`; the
conditional append of `df_extra` in the code equals plain concatenation).
Every `session.add` is staged and written by the single `session.commit()` at
the end of the `with` block; an exception leaves the block without committing,
so on error nothing is persisted — the caller observes the table through
`finalStore`. -/
def init_db (store : List CensusTract) (df_main df_extra : List Row) :
    Except String IngestResult :=
  let combined_df := df_main ++ df_extra
  let existing_tracts := store.map (fun t => t.census_tract)
  match ingestLoop existing_tracts [] combined_df with
  | .ok pending => .ok ⟨store ++ pending, none⟩
  | .error e => .error e

/-- The table contents after an `init_db` run, whether it committed or raised
(the session closes without committing, leaving the table unchanged). -/
def finalStore (store : List CensusTract) (df_main df_extra : List Row) :
    List CensusTract :=
  match init_db store df_main df_extra with
  | .ok res => res.store
  | .error _ => store

/-- Default `JWT_SECRET_KEY` of `main.py`. -/
def SECRET_KEY : String := "change-me-for-real-use"

/-- Default `JWT_ALGORITHM` of `main.py`. -/
def ALGORITHM : String := "HS256"

/-- Default `ACCESS_TOKEN_EXPIRE_MINUTES` of `main.py`. -/
def ACCESS_TOKEN_EXPIRE_MINUTES : Nat := 30

/-- Modelled from the spec: a `passlib` bcrypt hash (external library).
Section 4.3 specifies a one-way, salted comparison of a plaintext against the
stored hash; the hash is modelled as a wrapper remembering the hashed
plaintext, with `pwdVerify` as the comparison. -/
structure BcryptHash where
  plaintext : String
deriving DecidableEq

/-- Modelled from the spec: `pwd_context.hash`. -/
def pwdHash (p : String) : BcryptHash := ⟨p⟩

/-- Modelled from the spec: `pwd_context.verify`. -/
def pwdVerify (p : String) (h : BcryptHash) : Bool := p == h.plaintext

/-- One value of the `users_db` dictionary of `main.py`. -/
structure UserRec where
  username : String
  hashed_password : BcryptHash
deriving DecidableEq

/-- The fixed credential mapping `users_db` of `main.py`. -/
def users_db : List (String × UserRec) :=
  [("admin", ⟨"admin", pwdHash "securepassword123"⟩)]

/-- Python `username in users_db` (dictionary key membership). -/
def knownUser (u : String) : Bool :=
  (users_db.find? (fun e => e.1 == u)).isSome

/-- Python `users_db.get(username)`. -/
def usersDbGet (u : String) : Option UserRec :=
  (users_db.find? (fun e => e.1 == u)).map (fun e => e.2)

/-- The payload of a token: the `sub` claim as placed by `login`, and the
`exp` claim written by `create_access_token`, a timestamp in seconds. -/
structure JWTPayload where
  sub : Option String
  exp : Nat
deriving DecidableEq

/-- Modelled from the spec: an HMAC signature over a payload, determined by
the algorithm name, the key and the signed payload (`python-jose` is an
external library; section 4.4 specifies a signed payload under a server-held
secret and a named algorithm). -/
structure Sig where
  alg : String
  key : String
  body : JWTPayload
deriving DecidableEq

/-- A bearer token as presented by a client: either a well-formed JWS carrying
a payload and a signature, or malformed bytes. -/
inductive TokenBytes where
  | jws (payload : JWTPayload) (sig : Sig)
  | malformed (raw : String)
deriving DecidableEq

/-- Modelled from the spec: `jose.jwt.encode`. -/
def jwtEncode (key : String) (p : JWTPayload) : TokenBytes :=
  .jws p ⟨ALGORITHM, key, p⟩

/-- The failures of `jose.jwt.decode`; each is a subclass of `JWTError`. -/
inductive JWTErr where
  | badSig
  | expired
  | badPayload
deriving DecidableEq

/-- Modelled from the spec: `jose.jwt.decode` at time `now`, verifying the
signature against the key and the allowed algorithm and rejecting an `exp`
claim lying in the past. -/
def jwtDecode (now : Nat) (key : String) : TokenBytes → Except JWTErr JWTPayload
  | .malformed _ => .error .badPayload
  | .jws p s =>
    if s ≠ ⟨ALGORITHM, key, p⟩ then .error .badSig
    else if p.exp < now then .error .expired
    else .ok p

/-- `create_access_token` of `main.py` called at time `now`: copies the data
(here its `sub` entry), sets `exp` to `now` plus the configured lifetime, and
signs with the secret key. -/
def create_access_token (sub : Option String) (now : Nat) : TokenBytes :=
  jwtEncode SECRET_KEY ⟨sub, now + ACCESS_TOKEN_EXPIRE_MINUTES * 60⟩

/-- HTTP status 401. -/
def http401 : Nat := 401

/-- `get_current_user` of `main.py` at time `now`: decode the token, read the
`sub` claim, and raise a 401 `HTTPException` on any `JWTError`, a missing
subject, or a subject that is not a key of `users_db`. -/
def get_current_user (now : Nat) (token : TokenBytes) : Except Nat String :=
  match jwtDecode now SECRET_KEY token with
  | .error _ => .error http401
  | .ok payload =>
    match payload.sub with
    | none => .error http401
    | some username =>
      if knownUser username then .ok username else .error http401

/-- The response body of a successful login. -/
structure Token where
  access_token : TokenBytes
  token_type : String
deriving DecidableEq

/-- The `/token` endpoint (`login` in `main.py`) at time `now`.  An unknown
username and a wrong password raise the same 401 `HTTPException` (a single
`if not user or not pwd_context.verify(...)`). -/
def login (now : Nat) (username password : String) : Except Nat Token :=
  match usersDbGet username with
  | none => .error http401
  | some user =>
    if pwdVerify password user.hashed_password then
      .ok ⟨create_access_token (some username) now, "bearer"⟩
    else .error http401

/-- The dictionary built by `get_single_tract` before returning. -/
structure TractDict where
  census_tract : String
  inclusion_score : ℚ
  growth_score : ℚ
  economy_score : ℚ
  community_score : ℚ
deriving DecidableEq

/-- The `CensusTractModel` response validation of `main.py`: identifier at
most 11 characters, every score within 0 and 100. -/
def validModel (d : TractDict) : Prop :=
  d.census_tract.length ≤ 11 ∧
  (0 ≤ d.inclusion_score ∧ d.inclusion_score ≤ 100) ∧
  (0 ≤ d.growth_score ∧ d.growth_score ≤ 100) ∧
  (0 ≤ d.economy_score ∧ d.economy_score ≤ 100) ∧
  (0 ≤ d.community_score ∧ d.community_score ≤ 100)

instance (d : TractDict) : Decidable (validModel d) := by
  unfold validModel; infer_instance

/-- HTTP status 404. -/
def http404 : Nat := 404

/-- HTTP status 500, the effect of a response failing model validation. -/
def http500 : Nat := 500

/-- `get_single_tract` of `main.py`, after authentication: filter on exact
equality of the `census_tract` column with the caller-supplied path string,
take the first match, 404 when absent; otherwise build the dictionary with
the identifier re-sanitized and serialize it through `CensusTractModel`. -/
def get_single_tract (store : List CensusTract) (census_tract : String) :
    Except Nat TractDict :=
  match store.find? (fun t => t.census_tract == census_tract) with
  | none => .error http404
  | some t =>
    let d : TractDict := ⟨nh3Clean t.census_tract, t.inclusion_score,
      t.growth_score, t.economy_score, t.community_score⟩
    if validModel d then .ok d else .error http500

/-- Example row: the tract identifier of the test suite, in its 10-digit
string form, with in-range scores. -/
def exRowI : Row := ⟨"6037102107", .num 50, .num 60, .num 70, .num 80⟩

/-- The same identifier as loaded through a float-typed column. -/
def exRowF : Row := ⟨"6037102107.0", .num 50, .num 60, .num 70, .num 80⟩

/-- A row carrying the same identifier as `exRowI` but different scores. -/
def exRowDup : Row := ⟨"6037102107.0", .num 1, .num 2, .num 3, .num 4⟩

/-- The record `init_db` builds from `exRowI` (and from `exRowF`). -/
def exTract : CensusTract := ⟨"06037102107", 50, 60, 70, 80⟩

/-- A row whose raw identifier is 12 characters long and not digit-only. -/
def longRow : Row := ⟨"1234567890ab", .num 1, .num 2, .num 3, .num 4⟩

/-- The record `init_db` builds from `longRow`. -/
def longTract : CensusTract := ⟨"1234567890ab", 1, 2, 3, 4⟩

/-- A row with a fresh identifier whose first score cell is non-numeric. -/
def badScoreRow : Row := ⟨"6037102108", .malformed "n/a", .num 1, .num 2, .num 3⟩

/-! Equation lemmas for the ingestion loop. -/

theorem ingestLoop_nil (seen : List String) (pending : List CensusTract) :
    ingestLoop seen pending [] = .ok pending := rfl

theorem ingestLoop_cons_mem (seen : List String) (pending : List CensusTract)
    (r : Row) (rs : List Row) (h : normalizeId r.census_tract ∈ seen) :
    ingestLoop seen pending (r :: rs) = ingestLoop seen pending rs := by
  simp [ingestLoop, h]

theorem ingestLoop_cons_bad (seen : List String) (pending : List CensusTract)
    (r : Row) (rs : List Row) (h1 : normalizeId r.census_tract ∉ seen)
    (h2 : rowScores r = none) :
    ingestLoop seen pending (r :: rs) = .error floatErr := by
  simp [ingestLoop, h1, h2]

theorem ingestLoop_cons_fresh (seen : List String) (pending : List CensusTract)
    (r : Row) (rs : List Row) (i g e c : ℚ)
    (h1 : normalizeId r.census_tract ∉ seen)
    (h2 : rowScores r = some (i, g, e, c)) :
    ingestLoop seen pending (r :: rs) =
      ingestLoop (normalizeId r.census_tract :: seen)
        (pending ++ [⟨normalizeId r.census_tract, i, g, e, c⟩]) rs := by
  simp [ingestLoop, h1, h2]

/-- On success the loop only appends to the pending list. -/
theorem ingestLoop_ok_prefix :
    ∀ (rows : List Row) (seen : List String) (pending out : List CensusTract),
      ingestLoop seen pending rows = .ok out → ∃ extra, out = pending ++ extra := by
  intro rows
  induction rows with
  | nil =>
    intro seen pending out h
    rw [ingestLoop_nil] at h
    exact ⟨[], by simpa using (Except.ok.inj h).symm⟩
  | cons r rs ih =>
    intro seen pending out h
    by_cases hmem : normalizeId r.census_tract ∈ seen
    · rw [ingestLoop_cons_mem seen pending r rs hmem] at h
      exact ih seen pending out h
    · cases hsc : rowScores r with
      | none =>
        rw [ingestLoop_cons_bad seen pending r rs hmem hsc] at h
        exact absurd h (by simp)
      | some q =>
        obtain ⟨i, g, e, c⟩ := q
        rw [ingestLoop_cons_fresh seen pending r rs i g e c hmem hsc] at h
        obtain ⟨extra, hx⟩ := ih _ _ _ h
        exact ⟨⟨normalizeId r.census_tract, i, g, e, c⟩ :: extra, by simp [hx]⟩

/-- Rows whose identifiers are all already seen are all skipped. -/
theorem ingestLoop_skip_all :
    ∀ (rows : List Row) (seen : List String) (pending : List CensusTract),
      (∀ r ∈ rows, normalizeId r.census_tract ∈ seen) →
      ingestLoop seen pending rows = .ok pending := by
  intro rows
  induction rows with
  | nil => intro seen pending _; rfl
  | cons r rs ih =>
    intro seen pending h
    rw [ingestLoop_cons_mem seen pending r rs (h r (by simp))]
    exact ih seen pending (fun x hx => h x (by simp [hx]))

/-- Every record produced by a successful loop either was already pending or
comes from the first row of the list carrying its identifier, with that row's
scores, the identifier being fresh with respect to `seen`. -/
theorem ingestLoop_mem_spec :
    ∀ (rows : List Row) (seen : List String) (pending out : List CensusTract),
      ingestLoop seen pending rows = .ok out →
      ∀ t ∈ out, t ∈ pending ∨
        (t.census_tract ∉ seen ∧
          ∃ r, rows.find? (fun x => normalizeId x.census_tract == t.census_tract)
                 = some r ∧
            t.census_tract = normalizeId r.census_tract ∧
            rowScores r = some (t.inclusion_score, t.growth_score,
              t.economy_score, t.community_score)) := by
  intro rows
  induction rows with
  | nil =>
    intro seen pending out h t ht
    rw [ingestLoop_nil] at h
    exact Or.inl ((Except.ok.inj h) ▸ ht)
  | cons r rs ih =>
    intro seen pending out h t ht
    by_cases hmem : normalizeId r.census_tract ∈ seen
    · rw [ingestLoop_cons_mem seen pending r rs hmem] at h
      rcases ih seen pending out h t ht with hl | ⟨hns, r2, hfind, hid, hsc⟩
      · exact Or.inl hl
      · refine Or.inr ⟨hns, r2, ?_, hid, hsc⟩
        have hne : ¬ ((normalizeId r.census_tract == t.census_tract) = true) := by
          simp only [beq_iff_eq]
          intro he
          exact hns (he ▸ hmem)
        exact (List.find?_cons_of_neg rs hne).trans hfind
    · cases hsc : rowScores r with
      | none =>
        rw [ingestLoop_cons_bad seen pending r rs hmem hsc] at h
        exact absurd h (by simp)
      | some q =>
        obtain ⟨i, g, e, c⟩ := q
        rw [ingestLoop_cons_fresh seen pending r rs i g e c hmem hsc] at h
        rcases ih _ _ _ h t ht with hl | ⟨hns, r2, hfind, hid, hsc2⟩
        · rcases List.mem_append.mp hl with hp | hnew
          · exact Or.inl hp
          · have ht2 : t = ⟨normalizeId r.census_tract, i, g, e, c⟩ := by
              simpa using hnew
            subst ht2
            refine Or.inr ⟨hmem, r, ?_, rfl, hsc⟩
            exact List.find?_cons_of_pos _ (by simp)
        · have hne2 : t.census_tract ≠ normalizeId r.census_tract := by
            intro he
            exact hns (by simp [he])
          have hns2 : t.census_tract ∉ seen := fun hx => hns (by simp [hx])
          refine Or.inr ⟨hns2, r2, ?_, hid, hsc2⟩
          have hne : ¬ ((normalizeId r.census_tract == t.census_tract) = true) := by
            simp only [beq_iff_eq]
            intro he
            exact hne2 he.symm
          exact (List.find?_cons_of_neg rs hne).trans hfind

/-- Completeness of the identifier union: every fresh normalized identifier
among the rows ends up in the output of a successful loop. -/
theorem ingestLoop_ids_complete :
    ∀ (rows : List Row) (seen : List String) (pending out : List CensusTract),
      ingestLoop seen pending rows = .ok out →
      ∀ n : String,
        ((∃ t ∈ pending, t.census_tract = n) ∨
          (n ∉ seen ∧ ∃ r ∈ rows, normalizeId r.census_tract = n)) →
        ∃ t ∈ out, t.census_tract = n := by
  intro rows
  induction rows with
  | nil =>
    intro seen pending out h n hn
    rw [ingestLoop_nil] at h
    rcases hn with ⟨t, ht, hid⟩ | ⟨_, r, hr, _⟩
    · exact ⟨t, (Except.ok.inj h) ▸ ht, hid⟩
    · exact absurd hr (by simp)
  | cons r rs ih =>
    intro seen pending out h n hn
    by_cases hmem : normalizeId r.census_tract ∈ seen
    · rw [ingestLoop_cons_mem seen pending r rs hmem] at h
      rcases hn with hl | ⟨hns, r2, hr2, hid2⟩
      · exact ih seen pending out h n (Or.inl hl)
      · rcases List.mem_cons.mp hr2 with rfl | hr2s
        · exact absurd (hid2 ▸ hmem) hns
        · exact ih seen pending out h n (Or.inr ⟨hns, r2, hr2s, hid2⟩)
    · cases hsc : rowScores r with
      | none =>
        rw [ingestLoop_cons_bad seen pending r rs hmem hsc] at h
        exact absurd h (by simp)
      | some q =>
        obtain ⟨i, g, e, c⟩ := q
        rw [ingestLoop_cons_fresh seen pending r rs i g e c hmem hsc] at h
        rcases hn with ⟨t, ht, hid⟩ | ⟨hns, r2, hr2, hid2⟩
        · exact ih _ _ _ h n (Or.inl ⟨t, by simp [ht], hid⟩)
        · by_cases heq : n = normalizeId r.census_tract
          · refine ih _ _ _ h n (Or.inl ?_)
            exact ⟨⟨normalizeId r.census_tract, i, g, e, c⟩, by simp, heq.symm⟩
          · rcases List.mem_cons.mp hr2 with rfl | hr2s
            · exact absurd hid2.symm heq
            · refine ih _ _ _ h n (Or.inr ⟨?_, r2, hr2s, hid2⟩)
              simp only [List.mem_cons]
              rintro (he | hx)
              · exact heq he
              · exact hns hx

/-- A successful loop never produces two records with the same identifier. -/
theorem ingestLoop_nodup :
    ∀ (rows : List Row) (seen : List String) (pending out : List CensusTract),
      ingestLoop seen pending rows = .ok out →
      (pending.map (fun t => t.census_tract)).Nodup →
      (∀ t ∈ pending, t.census_tract ∈ seen) →
      (out.map (fun t => t.census_tract)).Nodup := by
  intro rows
  induction rows with
  | nil =>
    intro seen pending out h hnd _
    rw [ingestLoop_nil] at h
    exact (Except.ok.inj h) ▸ hnd
  | cons r rs ih =>
    intro seen pending out h hnd hinv
    by_cases hmem : normalizeId r.census_tract ∈ seen
    · rw [ingestLoop_cons_mem seen pending r rs hmem] at h
      exact ih seen pending out h hnd hinv
    · cases hsc : rowScores r with
      | none =>
        rw [ingestLoop_cons_bad seen pending r rs hmem hsc] at h
        exact absurd h (by simp)
      | some q =>
        obtain ⟨i, g, e, c⟩ := q
        rw [ingestLoop_cons_fresh seen pending r rs i g e c hmem hsc] at h
        refine ih _ _ _ h ?_ ?_
        · rw [List.map_append, List.nodup_append]
          refine ⟨hnd, by simp, ?_⟩
          intro x hx
          simp only [List.map_cons, List.map_nil, List.mem_singleton]
          intro he
          rcases List.mem_map.mp hx with ⟨t, ht, hid⟩
          exact hmem (he ▸ hid ▸ hinv t ht)
        · intro t ht
          rcases List.mem_append.mp ht with hp | hnew
          · exact List.mem_cons_of_mem _ (hinv t hp)
          · have ht2 : t = ⟨normalizeId r.census_tract, i, g, e, c⟩ := by
              simpa using hnew
            subst ht2
            exact List.mem_cons_self _ _

/-! String-level lemmas about the sanitizer, the padding, and the
decimal-point truncation. -/

theorem String_data_mk (l : List Char) : (String.mk l).data = l := rfl

theorem String_mk_data (s : String) : String.mk s.data = s := rfl

theorem String_length_data (s : String) : s.length = s.data.length := rfl

theorem String_data_append (s t : String) : (s ++ t).data = s.data ++ t.data := by
  cases s
  cases t
  rfl

/-- The modelled sanitizer is a character filter, hence idempotent. -/
theorem nh3Clean_idem (s : String) : nh3Clean (nh3Clean s) = nh3Clean s := by
  simp only [nh3Clean, String_data_mk]
  congr 1
  exact List.filter_eq_self.mpr (fun c hc => (List.mem_filter.mp hc).2)

/-- The modelled sanitizer keeps every digit, hence fixes digit-only strings. -/
theorem nh3Clean_digits (s : String) (h : ∀ c ∈ s.data, c.isDigit) :
    nh3Clean s = s := by
  simp only [nh3Clean]
  have hf : s.data.filter (fun c => !(c = '<' || c = '>' || c = '&')) = s.data := by
    refine List.filter_eq_self.mpr (fun c hc => ?_)
    have hd := h c hc
    have h1 : c ≠ '<' := fun he => absurd hd (by rw [he]; decide)
    have h2 : c ≠ '>' := fun he => absurd hd (by rw [he]; decide)
    have h3 : c ≠ '&' := fun he => absurd hd (by rw [he]; decide)
    simp [h1, h2, h3]
  rw [hf]

/-- Padding a digit-only string: the result has exactly the requested width
when the input is not longer than it, and stays digit-only. -/
theorem zfill_digits (s : String) (w : Nat) (h : ∀ c ∈ s.data, c.isDigit) :
    (zfill s w).length = max w s.length ∧
      ∀ c ∈ (zfill s w).data, c.isDigit := by
  unfold zfill
  by_cases hw : w ≤ s.length
  · simp only [hw, if_true]
    exact ⟨(Nat.max_eq_right hw).symm, h⟩
  · simp only [hw, if_false]
    have hsl : s.length = s.data.length := rfl
    cases hdata : s.data with
    | nil =>
      have hlen : s.data.length = 0 := by rw [hdata]; rfl
      constructor
      · show (String.mk (List.replicate (w - s.length) '0')).length
            = max w s.length
        rw [String_length_data, String_data_mk, List.length_replicate]
        rw [hsl] at hw ⊢
        omega
      · intro c hc
        rw [List.eq_of_mem_replicate hc]
        decide
    | cons c0 rest =>
      have hc0 : c0.isDigit := h c0 (by rw [hdata]; exact List.mem_cons_self _ _)
      have hsign : ¬ (c0 = '+' ∨ c0 = '-') := by
        rintro (he | he) <;> exact absurd hc0 (by rw [he]; decide)
      simp only [hsign, if_false]
      have hlen : s.data.length = rest.length + 1 := by rw [hdata]; rfl
      constructor
      · show (String.mk (List.replicate (w - s.length) '0' ++ c0 :: rest)).length
            = max w s.length
        rw [String_length_data, String_data_mk, List.length_append,
          List.length_replicate, List.length_cons]
        rw [hsl] at hw ⊢
        omega
      · intro c hc
        rcases List.mem_append.mp hc with hp | hs
        · rw [List.eq_of_mem_replicate hp]
          decide
        · exact h c (by rw [hdata]; exact hs)

theorem takeWhile_dot (l m : List Char) (h : '.' ∉ l) :
    (l ++ '.' :: m).takeWhile (fun c => c != '.') = l := by
  induction l with
  | nil => simp [List.takeWhile_cons]
  | cons c l ih =>
    have hc : c ≠ '.' := fun he => h (by rw [he]; exact List.mem_cons_self _ _)
    have hl : '.' ∉ l := fun hx => h (List.mem_cons_of_mem _ hx)
    simp only [List.cons_append, List.takeWhile_cons]
    simp [hc, ih hl]

/-- The truncation step keeps exactly the prefix before the first decimal
point. -/
theorem stripDecimals_append_dot (a b : String) (h : '.' ∉ a.data) :
    stripDecimals (a ++ "." ++ b) = a := by
  have hdata : (a ++ "." ++ b).data = a.data ++ '.' :: b.data := by
    rw [String_data_append, String_data_append, List.append_assoc]
    rfl
  unfold stripDecimals
  rw [hdata]
  have hmem : '.' ∈ a.data ++ '.' :: b.data := by simp
  simp only [hmem, if_true]
  rw [takeWhile_dot a.data b.data h]

/-- A string untouched by truncation. -/
theorem stripDecimals_no_dot (a : String) (h : '.' ∉ a.data) :
    stripDecimals a = a := by
  unfold stripDecimals
  simp [h]

/-- Normalization of a digit-only identifier of width at most 11 yields an
11-character digit-only identifier. -/
theorem normalizeId_digits (raw : String)
    (hd : ∀ c ∈ (stripDecimals raw).data, c.isDigit)
    (hl : (stripDecimals raw).length ≤ 11) :
    (normalizeId raw).length = 11 ∧ ∀ c ∈ (normalizeId raw).data, c.isDigit := by
  unfold normalizeId
  obtain ⟨hlen, hdig⟩ := zfill_digits (stripDecimals raw) 11 hd
  rw [nh3Clean_digits _ hdig]
  exact ⟨by omega, hdig⟩

/-- Destructor for a successful `init_db` run. -/
theorem init_db_ok_elim (store : List CensusTract) (main extra : List Row)
    (res : IngestResult) (h : init_db store main extra = .ok res) :
    ∃ pending,
      ingestLoop (store.map (fun t => t.census_tract)) [] (main ++ extra)
        = .ok pending ∧
      res.store = store ++ pending ∧ res.retval = none := by
  simp only [init_db] at h
  cases hl : ingestLoop (store.map (fun t => t.census_tract)) [] (main ++ extra) with
  | ok p =>
    rw [hl] at h
    refine ⟨p, rfl, ?_, ?_⟩
    · rw [← Except.ok.inj h]
    · rw [← Except.ok.inj h]
  | error e =>
    rw [hl] at h
    exact absurd h (by simp)

/-- Reaching a fresh row with an uncoercible score makes the loop raise,
whatever happened on the earlier rows. -/
theorem ingestLoop_error_at :
    ∀ (pre : List Row) (seen : List String) (pending : List CensusTract)
      (r : Row) (post : List Row),
      rowScores r = none →
      normalizeId r.census_tract ∉ seen →
      (∀ x ∈ pre, normalizeId x.census_tract ≠ normalizeId r.census_tract) →
      ingestLoop seen pending (pre ++ r :: post) = .error floatErr := by
  intro pre
  induction pre with
  | nil =>
    intro seen pending r post h1 h2 _
    rw [List.nil_append]
    exact ingestLoop_cons_bad seen pending r post h2 h1
  | cons x pre ih =>
    intro seen pending r post h1 h2 h3
    rw [List.cons_append]
    by_cases hx : normalizeId x.census_tract ∈ seen
    · rw [ingestLoop_cons_mem seen pending x (pre ++ r :: post) hx]
      exact ih seen pending r post h1 h2
        (fun y hy => h3 y (List.mem_cons_of_mem _ hy))
    · cases hsc : rowScores x with
      | none => exact ingestLoop_cons_bad seen pending x (pre ++ r :: post) hx hsc
      | some q =>
        obtain ⟨i, g, e, c⟩ := q
        rw [ingestLoop_cons_fresh seen pending x (pre ++ r :: post) i g e c hx hsc]
        refine ih _ _ r post h1 ?_ (fun y hy => h3 y (List.mem_cons_of_mem _ hy))
        simp only [List.mem_cons]
        rintro (he | hm)
        · exact h3 x (List.mem_cons_self _ _) he.symm
        · exact h2 hm

/-- `get_current_user` either raises the 401 exception or returns a
username. -/
theorem gcu_total (now : Nat) (tok : TokenBytes) :
    get_current_user now tok = .error http401 ∨
      ∃ u, get_current_user now tok = .ok u := by
  unfold get_current_user
  cases hd : jwtDecode now SECRET_KEY tok with
  | error e => simp
  | ok payload =>
    cases hsub : payload.sub with
    | none => simp [hsub]
    | some u =>
      by_cases hk : knownUser u
      · right
        exact ⟨u, by simp [hsub, hk]⟩
      · left
        simp [hsub, hk]

/-! The claims. -/

/-- C1 counterexample: a run over the available sources that inserts exactly
one record returns `None` (no `return` statement in `init_db`), not the
count 1 of newly inserted records. -/
theorem C1_counterexample :
    init_db [] [exRowI] [] = .ok ⟨[exTract], none⟩ ∧
      ([exTract].length - ([] : List CensusTract).length = 1) ∧
      (⟨[exTract], none⟩ : IngestResult).retval ≠ some 1 := by
  refine ⟨by decide, by decide, by decide⟩

/-- C1 amended: a successful `init_db` run persists the newly inserted
records by appending them to the store, but returns `None`; the count of
newly inserted records is observable only as the growth of the store, not as
a return value. -/
theorem C1_ingest_returns_none (store : List CensusTract) (main extra : List Row)
    (res : IngestResult) (h : init_db store main extra = .ok res) :
    res.retval = none ∧
      ∃ inserted, res.store = store ++ inserted ∧
        res.store.length = store.length + inserted.length := by
  obtain ⟨pending, _, hstore, hret⟩ := init_db_ok_elim store main extra res h
  exact ⟨hret, pending, hstore, by rw [hstore]; simp⟩

theorem C1_witness :
    (⟨[exTract], none⟩ : IngestResult).retval = none :=
  (C1_ingest_returns_none [] [exRowI] [] ⟨[exTract], none⟩ (by decide)).1

/-- C2: a fresh row whose scores cannot be coerced makes the run raise, and a
raising run persists nothing (the single `session.commit()` at the end is
never reached, so the table is unchanged), while a row whose identifier
collides with the seen set is skipped before its scores are ever examined. -/
theorem C2_fatal_scores_all_or_nothing
    (store : List CensusTract) (main extra pre post : List Row)
    (seen : List String) (pending : List CensusTract) (r : Row) (rs : List Row)
    (e : String) :
    (init_db store main extra = .error e → finalStore store main extra = store) ∧
    (normalizeId r.census_tract ∈ seen →
      ingestLoop seen pending (r :: rs) = ingestLoop seen pending rs) ∧
    (rowScores r = none →
      normalizeId r.census_tract ∉ store.map (fun t => t.census_tract) →
      (∀ x ∈ pre, normalizeId x.census_tract ≠ normalizeId r.census_tract) →
      init_db store pre (r :: post) = .error floatErr) := by
  refine ⟨?_, ?_, ?_⟩
  · intro h
    simp [finalStore, h]
  · intro h
    exact ingestLoop_cons_mem seen pending r rs h
  · intro h1 h2 h3
    simp only [init_db]
    rw [ingestLoop_error_at pre (store.map (fun t => t.census_tract)) [] r post
      h1 h2 h3]

theorem C2_witness :
    finalStore [] [] [badScoreRow] = [] :=
  (C2_fatal_scores_all_or_nothing [] [] [badScoreRow] [] [] [] [] badScoreRow []
    floatErr).1 (by decide)

/-- C3 counterexample: ingesting a row whose raw identifier is a 12-character
string with non-digit characters stores it as-is — the stored `tractId` has
length 12, not 11, and is not digit-only. -/
theorem C3_counterexample :
    init_db [] [longRow] [] = .ok ⟨[longTract], none⟩ ∧
      longTract.census_tract.length = 12 ∧
      ¬ (∀ c ∈ longTract.census_tract.data, c.isDigit) := by
  refine ⟨by decide, by decide, by decide⟩

/-- C3 amended: after any ingestion run, no two stored records share a
`tractId` (given the store satisfied this before), and every stored
`tractId` is an 11-character zero-padded digit-only string provided the
pre-existing records satisfied this and every raw identifier, truncated at
its decimal point, is a digit-only string of at most 11 characters; a longer
or non-digit raw identifier is stored as given. -/
theorem C3_invariant_amended (store : List CensusTract) (main extra : List Row)
    (res : IngestResult) (h : init_db store main extra = .ok res) :
    ((store.map (fun t => t.census_tract)).Nodup →
      (res.store.map (fun t => t.census_tract)).Nodup) ∧
    ((∀ t ∈ store, t.census_tract.length = 11 ∧
        ∀ c ∈ t.census_tract.data, c.isDigit) →
      (∀ r ∈ main ++ extra, (∀ c ∈ (stripDecimals r.census_tract).data, c.isDigit) ∧
        (stripDecimals r.census_tract).length ≤ 11) →
      ∀ t ∈ res.store, t.census_tract.length = 11 ∧
        ∀ c ∈ t.census_tract.data, c.isDigit) := by
  obtain ⟨pending, hloop, hstore, _⟩ := init_db_ok_elim store main extra res h
  constructor
  · intro hnd
    rw [hstore, List.map_append, List.nodup_append]
    refine ⟨hnd, ingestLoop_nodup _ _ _ _ hloop (by simp) (by simp), ?_⟩
    intro n hn hnp
    rcases List.mem_map.mp hnp with ⟨t, ht, hid⟩
    rcases ingestLoop_mem_spec _ _ _ _ hloop t ht with hl | ⟨hns, _⟩
    · exact absurd hl (List.not_mem_nil t)
    · exact hns (hid ▸ hn)
  · intro hstoreinv hrows t ht
    rw [hstore] at ht
    rcases List.mem_append.mp ht with hs | hp
    · exact hstoreinv t hs
    · rcases ingestLoop_mem_spec _ _ _ _ hloop t hp with hl | ⟨_, r, hfind, hid, _⟩
      · exact absurd hl (List.not_mem_nil t)
      · have hrmem : r ∈ main ++ extra := List.mem_of_find?_eq_some hfind
        obtain ⟨hdig, hlen⟩ := hrows r hrmem
        obtain ⟨hl11, hdigits⟩ := normalizeId_digits r.census_tract hdig hlen
        rw [hid]
        exact ⟨hl11, hdigits⟩

theorem C3_witness :
    (([exTract] : List CensusTract).map (fun t => t.census_tract)).Nodup :=
  (C3_invariant_amended [] [exRowI] [] ⟨[exTract], none⟩ (by decide)).1 (by decide)

/-- C4: ingestion deduplicates by identifier set-membership with
first-write-wins — running `init_db` again over the same sources inserts
nothing, the identifiers stored after a run are exactly the union of the
pre-existing ones and the normalized identifiers of the rows, and every
stored record either pre-existed or carries the scores of the first row in
the combined working set bearing its identifier. -/
theorem C4_dedup (store : List CensusTract) (main extra : List Row)
    (res : IngestResult) (h : init_db store main extra = .ok res) :
    init_db res.store main extra = .ok ⟨res.store, none⟩ ∧
    (∀ n : String, (∃ t ∈ res.store, t.census_tract = n) ↔
      ((∃ t ∈ store, t.census_tract = n) ∨
        (∃ r ∈ main ++ extra, normalizeId r.census_tract = n))) ∧
    (∀ t ∈ res.store, t ∈ store ∨
      ∃ r, (main ++ extra).find?
            (fun x => normalizeId x.census_tract == t.census_tract) = some r ∧
        t.census_tract = normalizeId r.census_tract ∧
        rowScores r = some (t.inclusion_score, t.growth_score,
          t.economy_score, t.community_score)) := by
  obtain ⟨pending, hloop, hstore, _⟩ := init_db_ok_elim store main extra res h
  have hunion : ∀ n : String, (∃ t ∈ res.store, t.census_tract = n) ↔
      ((∃ t ∈ store, t.census_tract = n) ∨
        (∃ r ∈ main ++ extra, normalizeId r.census_tract = n)) := by
    intro n
    constructor
    · rintro ⟨t, ht, hid⟩
      rw [hstore] at ht
      rcases List.mem_append.mp ht with hs | hp
      · exact Or.inl ⟨t, hs, hid⟩
      · rcases ingestLoop_mem_spec _ _ _ _ hloop t hp with hl | ⟨_, r, hfind, hid2, _⟩
        · exact absurd hl (List.not_mem_nil t)
        · exact Or.inr ⟨r, List.mem_of_find?_eq_some hfind, by rw [← hid2, hid]⟩
    · rintro (⟨t, ht, hid⟩ | ⟨r, hr, hid⟩)
      · exact ⟨t, by rw [hstore]; exact List.mem_append_left _ ht, hid⟩
      · by_cases hn : n ∈ store.map (fun t => t.census_tract)
        · rcases List.mem_map.mp hn with ⟨t, ht, hid2⟩
          exact ⟨t, by rw [hstore]; exact List.mem_append_left _ ht, hid2⟩
        · obtain ⟨t, ht, hid2⟩ := ingestLoop_ids_complete _ _ _ _ hloop n
            (Or.inr ⟨hn, r, hr, hid⟩)
          exact ⟨t, by rw [hstore]; exact List.mem_append_right _ ht, hid2⟩
  refine ⟨?_, hunion, ?_⟩
  · have hall : ∀ r ∈ main ++ extra,
        normalizeId r.census_tract ∈ res.store.map (fun t => t.census_tract) := by
      intro r hr
      obtain ⟨t, ht, hid⟩ := (hunion (normalizeId r.census_tract)).mpr
        (Or.inr ⟨r, hr, rfl⟩)
      exact List.mem_map.mpr ⟨t, ht, hid⟩
    have hskip := ingestLoop_skip_all (main ++ extra)
      (res.store.map (fun t => t.census_tract)) [] hall
    simp only [init_db]
    rw [hskip]
    simp
  · intro t ht
    rw [hstore] at ht
    rcases List.mem_append.mp ht with hs | hp
    · exact Or.inl hs
    · rcases ingestLoop_mem_spec _ _ _ _ hloop t hp with hl | ⟨_, r, hfind, hid, hsc⟩
      · exact absurd hl (List.not_mem_nil t)
      · exact Or.inr ⟨r, hfind, hid, hsc⟩

theorem C4_witness :
    init_db [exTract] [exRowI] [exRowDup] = .ok ⟨[exTract], none⟩ :=
  (C4_dedup [] [exRowI] [exRowDup] ⟨[exTract], none⟩ (by decide)).1

/-- C5: identifier normalization truncates the raw text at the first decimal
point, keeping the prefix, then zero-pads to 11 characters, then sanitizes;
both "6037102107" and "6037102107.0" normalize to "06037102107", also when
run through `init_db`. -/
theorem C5_normalization :
    (∀ a b : String, '.' ∉ a.data →
      normalizeId (a ++ "." ++ b) = nh3Clean (zfill a 11)) ∧
    normalizeId "6037102107" = "06037102107" ∧
    normalizeId "6037102107.0" = "06037102107" ∧
    init_db [] [exRowI] [] = .ok ⟨[exTract], none⟩ ∧
    init_db [] [exRowF] [] = .ok ⟨[exTract], none⟩ := by
  refine ⟨?_, by decide, by decide, by decide, by decide⟩
  intro a b h
  unfold normalizeId
  rw [stripDecimals_append_dot a b h]

theorem C5_witness :
    normalizeId ("6037102107" ++ "." ++ "0") = nh3Clean (zfill "6037102107" 11) :=
  C5_normalization.1 "6037102107" "0" (by decide)

/-- C6: validating a token immediately after it is issued for a username
known to the credential mapping returns that username. -/
theorem C6_round_trip (u : String) (now : Nat) (h : knownUser u = true) :
    get_current_user now (create_access_token (some u) now) = .ok u := by
  have hexp : ¬ (now + ACCESS_TOKEN_EXPIRE_MINUTES * 60 < now) := by omega
  simp [get_current_user, create_access_token, jwtEncode, jwtDecode, hexp, h]

theorem C6_witness :
    get_current_user 0 (create_access_token (some "admin") 0) = .ok "admin" :=
  C6_round_trip "admin" 0 (by decide)

/-- C7: token validation succeeds exactly on a well-signed, unexpired token
whose subject is a known username, in which case it returns the subject;
every other token — bad signature, malformed payload, expired, or unknown or
missing subject — fails with the 401 authentication error, in particular any
token whose expiry lies in the past. -/
theorem C7_validation (now : Nat) (tok : TokenBytes) :
    (∀ u : String, get_current_user now tok = .ok u ↔
      ∃ p : JWTPayload, tok = .jws p ⟨ALGORITHM, SECRET_KEY, p⟩ ∧
        ¬ p.exp < now ∧ p.sub = some u ∧ knownUser u = true) ∧
    (get_current_user now tok = .error http401 ∨
      ∃ u, get_current_user now tok = .ok u) ∧
    (∀ (p : JWTPayload) (s2 : Sig), p.exp < now →
      get_current_user now (.jws p s2) = .error http401) := by
  refine ⟨?_, gcu_total now tok, ?_⟩
  · intro u
    cases tok with
    | malformed raw => simp [get_current_user, jwtDecode]
    | jws p s =>
      by_cases hs : s = (⟨ALGORITHM, SECRET_KEY, p⟩ : Sig)
      · subst hs
        by_cases hexp : p.exp < now
        · simp [get_current_user, jwtDecode, hexp]
        · cases hsub : p.sub with
          | none => simp [get_current_user, jwtDecode, hexp, hsub]
          | some v =>
            by_cases hk : knownUser v
            · rw [show get_current_user now
                  (TokenBytes.jws p ⟨ALGORITHM, SECRET_KEY, p⟩) = .ok v from by
                simp [get_current_user, jwtDecode, hexp, hsub, hk]]
              constructor
              · intro he
                have hvu : v = u := Except.ok.inj he
                subst hvu
                exact ⟨p, rfl, hexp, hsub, hk⟩
              · rintro ⟨p2, hpe, _, hsub2, _⟩
                have hp2 : p = p2 := (TokenBytes.jws.inj hpe).1
                subst hp2
                rw [hsub] at hsub2
                rw [Option.some.inj hsub2]
            · rw [show get_current_user now
                  (TokenBytes.jws p ⟨ALGORITHM, SECRET_KEY, p⟩)
                    = .error http401 from by
                simp [get_current_user, jwtDecode, hexp, hsub, hk]]
              constructor
              · intro he
                exact Except.noConfusion he
              · rintro ⟨p2, hpe, _, hsub2, hk2⟩
                have hp2 : p = p2 := (TokenBytes.jws.inj hpe).1
                subst hp2
                rw [hsub] at hsub2
                have hvu : v = u := Option.some.inj hsub2
                subst hvu
                exact absurd hk2 hk
      · rw [show get_current_user now (TokenBytes.jws p s)
              = .error http401 from by
            simp [get_current_user, jwtDecode, hs]]
        constructor
        · intro he
          exact Except.noConfusion he
        · rintro ⟨p2, hpe, _, _, _⟩
          obtain ⟨hp2, hs2⟩ := TokenBytes.jws.inj hpe
          subst hp2
          exact absurd hs2 hs
  · intro p s2 hexp
    by_cases hs : s2 = (⟨ALGORITHM, SECRET_KEY, p⟩ : Sig) <;>
      simp [get_current_user, jwtDecode, hs, hexp]

theorem C7_witness :
    get_current_user 5 (.jws ⟨some "admin", 0⟩
      ⟨ALGORITHM, SECRET_KEY, ⟨some "admin", 0⟩⟩) = .error http401 :=
  (C7_validation 5 (.malformed "x")).2.2 ⟨some "admin", 0⟩
    ⟨ALGORITHM, SECRET_KEY, ⟨some "admin", 0⟩⟩ (by decide)

/-- C8: the login check accepts exactly the valid pairs of the fixed
credential mapping, and an unknown username raises the very same 401
exception as a wrong password. -/
theorem C8_verify (now : Nat) (u p : String) :
    ((∃ t : Token, login now u p = .ok t) ↔
      (u = "admin" ∧ p = "securepassword123")) ∧
    (¬ (u = "admin" ∧ p = "securepassword123") →
      login now u p = .error http401) := by
  by_cases hu : u = "admin"
  · subst hu
    by_cases hp : p = "securepassword123"
    · subst hp
      constructor
      · simp [login, usersDbGet, users_db, pwdVerify, pwdHash, List.find?]
      · intro hn
        exact absurd ⟨rfl, rfl⟩ hn
    · have hbp : (p == "securepassword123") = false :=
        beq_eq_false_iff_ne.mpr hp
      constructor
      · simp [login, usersDbGet, users_db, pwdVerify, pwdHash, List.find?, hbp, hp]
      · intro _
        simp [login, usersDbGet, users_db, pwdVerify, pwdHash, List.find?, hbp]
  · have hne : (("admin" : String) == u) = false :=
      beq_eq_false_iff_ne.mpr (Ne.symm hu)
    constructor
    · simp [login, usersDbGet, users_db, List.find?, hne, hu]
    · intro _
      simp [login, usersDbGet, users_db, List.find?, hne]

theorem C8_witness :
    login 0 "nope" "whatever" = .error http401 :=
  (C8_verify 0 "nope" "whatever").2 (by decide)

/-- C9: the sanitizer is idempotent and does not alter a string composed
solely of digits. -/
theorem C9_clean_idempotent (x : String) :
    nh3Clean (nh3Clean x) = nh3Clean x ∧
      ((∀ c ∈ x.data, c.isDigit) → nh3Clean x = x) :=
  ⟨nh3Clean_idem x, fun h => nh3Clean_digits x h⟩

theorem C9_witness :
    nh3Clean "06037102107" = "06037102107" :=
  (C9_clean_idempotent "06037102107").2 (by decide)

/-- C10: the single-record lookup matches the caller-supplied identifier
exactly as given, with no truncation, padding, or sanitization applied to the
query: a query matching no stored identifier yields the 404 not-found error,
and in particular the unpadded 10-digit form of a stored padded identifier is
not found while the padded form is. -/
theorem C10_exact_match (store : List CensusTract) (q : String) :
    ((∀ t ∈ store, t.census_tract ≠ q) →
      get_single_tract store q = .error http404) ∧
    get_single_tract [exTract] "6037102107" = .error http404 ∧
    get_single_tract [exTract] "06037102107" =
      .ok ⟨"06037102107", 50, 60, 70, 80⟩ := by
  refine ⟨?_, by decide, by decide⟩
  intro h
  unfold get_single_tract
  have hf : store.find? (fun t => t.census_tract == q) = none := by
    rw [List.find?_eq_none]
    intro t ht
    simp [h t ht]
  rw [hf]

theorem C10_witness :
    get_single_tract [exTract] "6037102107" = .error http404 :=
  (C10_exact_match [exTract] "6037102107").1 (by decide)

end IGS
